import Mathlib

/-!
Verification of the buffered `FileStream` core (libim) against its
natural-language specification.

The embedding below translates `src/libim/io/filestream.cpp` (the POSIX
branch, which is the reference backend) into Lean:

* `IOBuffer` embeds the fixed-capacity staging buffer `IOBuffer<kBufferSize>`
  (the template is only ever instantiated at `kBufferSize`, so the capacity
  is fixed here).  The byte region is modelled as the list of staged bytes;
  the write cursor is the list's length.
* `Fs` embeds `FileStream::FileStreamImpl` together with the OS-visible
  state it manipulates: the physical file contents (`file`), the kernel
  file offset of the descriptor (`filePos`), and whether the descriptor is
  open (`fdOpen`, `fd > 0` in the source; `close` sets `fd = -1`).
  The field `oracle` models the byte counts that successive POSIX
  `::write` calls actually transfer (POSIX permits short writes); an empty
  oracle means every native write transfers everything, which is the
  ordinary behaviour of a regular file.  `nativeWrites` is a ghost counter
  of native write calls, used to state flush-count properties.
* Machine integers (`std::size_t`) are modelled as `Nat`.  The only
  subtraction in the source, `fileSize - currentOffset` in
  `FileStream::readsome`, is guarded by the invariant
  `currentOffset <= fileSize` (proved below for every reachable state), on
  which `Nat` truncated subtraction and `size_t` subtraction agree.
* C++ exceptions become `Except FsError`; since a throwing operation leaves
  the object in its partially-mutated state, every operation returns the
  post-state alongside the result.
* The `write` loop (`do { ... } while`) is not structurally recursive and
  genuinely diverges for some unreachable argument combinations (a full
  buffer on a read-only stream), so it is defined with a fuel counter;
  `Fs.write` supplies fuel `2 * length + 2`, which is proved sufficient for
  every writable-stream run.  A `none` result means the source loop does
  not terminate.
-/

/-- `byte_t`: file contents are byte sequences; byte values are opaque here. -/
abbrev byte_t := Nat

/-- `constexpr std::size_t kBufferSize = 4096;` -/
def kBufferSize : Nat := 4096

/-- `#define MAX_WRITE_FILE_SIZE 1'000'000'000 // 1GB` -/
def MAX_WRITE_FILE_SIZE : Nat := 1000000000

/-- `FileStream::Mode` -/
inductive Mode where
  | Read
  | Write
  | ReadWrite
deriving DecidableEq, Repr

/-- `IOBuffer<kBufferSize>`: the staged bytes; the write cursor `pos_` is
`data.length`. -/
structure IOBuffer where
  data : List byte_t
deriving DecidableEq, Repr

namespace IOBuffer

/-- `IOBuffer::write(data, size)`: accepts `min(size, capacity - cursor)`
bytes, copies them at the cursor, advances the cursor, returns the count
accepted. -/
def write (b : IOBuffer) (d : List byte_t) : Nat × IOBuffer :=
  let nWrite := kBufferSize - b.data.length
  let nWrite := if d.length < nWrite then d.length else nWrite
  (nWrite, ⟨b.data ++ d.take nWrite⟩)

/-- `IOBuffer::size()`: the cursor position. -/
def size (b : IOBuffer) : Nat := b.data.length

/-- `IOBuffer::hasData()`: `pos_ != begin()`. -/
def hasData (b : IOBuffer) : Bool := b.data ≠ []

/-- `IOBuffer::reset()`: cursor back to the start. -/
def reset (_ : IOBuffer) : IOBuffer := ⟨[]⟩

end IOBuffer

/-- The `FileStreamError` conditions thrown by the implementation, keyed by
their message. -/
inductive FsError where
  /-- "Failed to read from file: ..." -/
  | readFail
  /-- "Failed to write data to file: ..." -/
  | writeFail
  /-- "Failed to seek to position: ..." -/
  | seekFail
  /-- "Wrote to max file size limit" -/
  | sizeLimit
deriving DecidableEq, Repr

/-- `FileStream::FileStreamImpl` plus the OS state it drives (see the
module comment). -/
structure Fs where
  mode : Mode
  /-- `mutable std::size_t fileSize` — logical end-of-file. -/
  fileSize : Nat
  /-- `mutable std::size_t currentOffset` — logical cursor. -/
  currentOffset : Nat
  buffer : IOBuffer
  /-- whether `fd` is a live descriptor (`fd > 0`). -/
  fdOpen : Bool
  /-- physical contents of the file behind the descriptor. -/
  file : List byte_t
  /-- the kernel file offset of the descriptor. -/
  filePos : Nat
  /-- transfer counts for successive native writes; `[]` = always full. -/
  oracle : List Nat
  /-- ghost: number of native `::write` calls issued so far. -/
  nativeWrites : Nat
deriving DecidableEq, Repr

/-- POSIX `pwrite`-style update of file contents at an offset: overwrites
in place, extends at the end, and zero-fills any gap left by an earlier
`lseek` past end-of-file (sparse file semantics). -/
def osWriteAt (file : List byte_t) (pos : Nat) (d : List byte_t) : List byte_t :=
  let f := if file.length < pos then file ++ List.replicate (pos - file.length) 0 else file
  f.take pos ++ d ++ f.drop (pos + d.length)

namespace Fs

/-- POSIX `::write(fd, data, data.length)`: fails (`EBADF`) on a closed
descriptor; otherwise transfers `n` bytes at the kernel offset, where `n`
is capped by the head of the short-write oracle, and advances the offset. -/
def nativeWrite (s : Fs) (d : List byte_t) : Fs × Except FsError Nat :=
  if s.fdOpen then
    let n := match s.oracle with
      | [] => d.length
      | c :: _ => min d.length c
    ({ s with file := osWriteAt s.file s.filePos (d.take n),
              filePos := s.filePos + n,
              oracle := s.oracle.tail,
              nativeWrites := s.nativeWrites + 1 }, .ok n)
  else (s, .error .writeFail)

/-- `FileStreamImpl::read(data, length)`: one native `::read` (fails on a
closed descriptor), which returns the bytes available at the kernel offset
up to `length` (a short read at physical end-of-file is not an error);
then `currentOffset += nRead`. -/
def read (s : Fs) (length : Nat) : Fs × Except FsError (List byte_t) :=
  if s.fdOpen then
    let bytes := (s.file.drop s.filePos).take length
    ({ s with filePos := s.filePos + bytes.length,
              currentOffset := s.currentOffset + bytes.length }, .ok bytes)
  else (s, .error .readFail)

/-- `FileStreamImpl::flush()`: if the stream is writable and the buffer has
staged data, one native write of the buffered region, then `reset`;
otherwise returns 0. -/
def flush (s : Fs) : Fs × Except FsError Nat :=
  if (s.mode = Mode.Write ∨ s.mode = Mode.ReadWrite) ∧ s.buffer.hasData then
    match s.nativeWrite s.buffer.data with
    | (s', .ok nWritten) => ({ s' with buffer := s'.buffer.reset }, .ok nWritten)
    | (s', .error e) => (s', .error e)
  else (s, .ok 0)

end Fs

/-- One iteration of the body of the `do`-loop in
`FileStreamImpl::write`: stage into the buffer, flush when `nWritten <
length`, early-return the flushed count when `nFlushed < nWritten`.
`.inl (s, nWritten)` means the iteration continues; `.inr r` is an early
exit (short-flush return or exception). -/
def writeStep (s : Fs) (rem : List byte_t) (length : Nat) :
    (Fs × Nat) ⊕ (Fs × Except FsError Nat) :=
  let (nWritten, buf) := s.buffer.write rem
  let s1 : Fs := { s with buffer := buf }
  if nWritten < length then
    match s1.flush with
    | (s2, .ok nFlushed) =>
      if nFlushed < nWritten then .inr (s2, .ok nFlushed) else .inl (s2, nWritten)
    | (s2, .error e) => .inr (s2, .error e)
  else .inl (s1, nWritten)

/-- The epilogue after the loop: `currentOffset += nTotalWritten; if
(currentOffset > fileSize) fileSize = currentOffset; return
nTotalWritten;` -/
def writeFinish (s : Fs) (nTotalWritten : Nat) : Fs × Except FsError Nat :=
  let off := s.currentOffset + nTotalWritten
  ({ s with currentOffset := off,
            fileSize := if off > s.fileSize then off else s.fileSize }, .ok nTotalWritten)

/-- The `do { ... } while (nTotalWritten < length)` loop of
`FileStreamImpl::write`, with the `MAX_WRITE_FILE_SIZE` guard checked at
the end of each iteration.  `rem` is the unconsumed tail of the data (the
source advances the `data` pointer), so `length = nTotal + rem.length`.
Fuel bounds the iteration count; `none` = the source loop diverges. -/
def writeLoop (fuel : Nat) (s : Fs) (rem : List byte_t) (length nTotal : Nat) :
    Option (Fs × Except FsError Nat) :=
  match fuel with
  | 0 => none
  | fuel + 1 =>
    match writeStep s rem length with
    | .inr r => some r
    | .inl (s2, nWritten) =>
      let nTotal' := nTotal + nWritten
      if s2.currentOffset + nTotal' ≥ MAX_WRITE_FILE_SIZE then
        some (s2, .error .sizeLimit)
      else if nTotal' < length then
        writeLoop fuel s2 (rem.drop nWritten) length nTotal'
      else
        some (writeFinish s2 nTotal')

/-- `FileStreamImpl::write(data, length)` (= `FileStream::writesome`).
The fuel `2 * length + 2` is sufficient for every terminating run (each
iteration either consumes a byte or empties a full buffer). -/
def Fs.write (s : Fs) (data : List byte_t) : Option (Fs × Except FsError Nat) :=
  writeLoop (2 * data.length + 2) s data data.length 0

/-- `FileStreamImpl::seek(position)`: flush, `lseek(fd, position,
SEEK_SET)` (fails on a closed descriptor), then `currentOffset = position`
and `fileSize` is extended when the new offset passes it. -/
def Fs.seek (s : Fs) (position : Nat) : Fs × Except FsError Unit :=
  match s.flush with
  | (s1, .ok _) =>
    if s1.fdOpen then
      let s2 : Fs := { s1 with filePos := position }
      ({ s2 with currentOffset := position,
                 fileSize := if position > s2.fileSize then position else s2.fileSize },
       .ok ())
    else (s1, .error .seekFail)
  | (s1, .error e) => (s1, .error e)

/-- `FileStreamImpl::close()`: flush, then (if the descriptor is live)
`fsync` for writable modes, `::close`, and `fd = -1`.  A second close finds
`fd <= 0` and does nothing. -/
def Fs.close (s : Fs) : Fs × Except FsError Unit :=
  match s.flush with
  | (s1, .ok _) =>
    if s1.fdOpen then ({ s1 with fdOpen := false }, .ok ()) else (s1, .ok ())
  | (s1, .error e) => (s1, .error e)

namespace FileStream

/-- `FileStream::readsome(data, length)`: clamp the requested length at the
logical end-of-file, then delegate to the impl's `read`.  (The source
computes `fileSize - currentOffset` in `size_t`; on every reachable state
`currentOffset <= fileSize`, where this agrees with `Nat` subtraction.) -/
def readsome (s : Fs) (length : Nat) : Fs × Except FsError (List byte_t) :=
  let length := if s.currentOffset + length ≥ s.fileSize
                then s.fileSize - s.currentOffset else length
  s.read length

/-- `FileStream::size()` -/
def size (s : Fs) : Nat := s.fileSize

/-- `FileStream::tell()` -/
def tell (s : Fs) : Nat := s.currentOffset

/-- `FileStream::canRead()` -/
def canRead (s : Fs) : Bool := s.mode = Mode.Read ∨ s.mode = Mode.ReadWrite

/-- `FileStream::canWrite()` -/
def canWrite (s : Fs) : Bool := s.mode = Mode.Write ∨ s.mode = Mode.ReadWrite

end FileStream

/-- The state right after the `FileStreamImpl` constructor: `Read` opens an
existing file (`content`) and probes its size via `fstat`; `Write` and
`ReadWrite` open with `O_CREAT | O_TRUNC`, so the file starts empty and
`fileSize = 0`.  `currentOffset` starts at 0, the buffer empty, and native
writes transfer fully (empty oracle). -/
def freshOpen (mode : Mode) (content : List byte_t) : Fs :=
  match mode with
  | Mode.Read =>
    { mode := Mode.Read, fileSize := content.length, currentOffset := 0,
      buffer := ⟨[]⟩, fdOpen := true, file := content, filePos := 0,
      oracle := [], nativeWrites := 0 }
  | m =>
    { mode := m, fileSize := 0, currentOffset := 0,
      buffer := ⟨[]⟩, fdOpen := true, file := [], filePos := 0,
      oracle := [], nativeWrites := 0 }

/-- A fresh stream opened for writing (truncating). -/
def freshWrite : Fs := freshOpen Mode.Write []

/-- The round-trip scenario of the spec: open a fresh file for writing,
write `data`, close, reopen the resulting file in `Read` mode, and read
`data.length` bytes from offset 0. -/
def roundTrip (data : List byte_t) : Option (Except FsError (List byte_t)) :=
  match Fs.write freshWrite data with
  | none => none
  | some (_, .error e) => some (.error e)
  | some (s1, .ok _) =>
    match s1.close with
    | (_, .error e) => some (.error e)
    | (s2, .ok ()) => some ((FileStream.readsome (freshOpen Mode.Read s2.file) data.length).2)

/-- The public operations a caller can issue through the `FileStream`
interface (for stating trace invariants). -/
inductive Op where
  | write (data : List byte_t)
  | seek (p : Nat)
  | read (n : Nat)

/-- Run one public operation, keeping the post-state (also of a throwing
call, matching the C++ object after an exception).  `none` = the write
loop diverged. -/
def runOp (s : Fs) : Op → Option Fs
  | .write data => (Fs.write s data).map (·.1)
  | .seek p => some (s.seek p).1
  | .read n => some (FileStream.readsome s n).1

/-- Run a sequence of public operations. -/
def runOps (s : Fs) : List Op → Option Fs
  | [] => some s
  | op :: ops =>
    match runOp s op with
    | none => none
    | some t => runOps t ops

/-! ### Basic lemmas about the embedded operations -/

/-- `IOBuffer::write` accepts `min(size, capacity - cursor)` bytes. -/
theorem IOBuffer.write_eq (b : IOBuffer) (d : List byte_t) :
    b.write d = (min d.length (kBufferSize - b.data.length),
                 ⟨b.data ++ d.take (min d.length (kBufferSize - b.data.length))⟩) := by
  unfold IOBuffer.write
  rcases Nat.lt_or_ge d.length (kBufferSize - b.data.length) with h | h
  · simp [h, Nat.min_eq_left (Nat.le_of_lt h)]
  · simp [Nat.not_lt.mpr h, Nat.min_eq_right h]

/-- A native write at the current end of the file appends. -/
theorem osWriteAt_append (f d : List byte_t) : osWriteAt f f.length d = f ++ d := by
  unfold osWriteAt
  simp [List.drop_eq_nil_of_le (Nat.le_add_right f.length d.length)]

/-- `hasData` holds exactly when bytes are staged. -/
theorem IOBuffer.hasData_iff (b : IOBuffer) : b.hasData = true ↔ b.data ≠ [] := by
  simp [IOBuffer.hasData]

/-- `flush` never touches the logical counters, the mode, or the
descriptor's liveness. -/
theorem Fs.flush_frame (s : Fs) :
    (s.flush).1.mode = s.mode ∧ (s.flush).1.currentOffset = s.currentOffset ∧
    (s.flush).1.fileSize = s.fileSize ∧ (s.flush).1.fdOpen = s.fdOpen := by
  unfold Fs.flush Fs.nativeWrite
  by_cases hcond : (s.mode = Mode.Write ∨ s.mode = Mode.ReadWrite) ∧ s.buffer.hasData = true
  · by_cases ho : s.fdOpen = true
    · simp [hcond, ho]
    · replace ho : s.fdOpen = false := by simpa using ho
      simp [hcond, ho]
  · simp [hcond]

/-- On a live descriptor with no short-write oracle, `flush` succeeds and
(on a writable stream with staged bytes) transfers the whole buffer at the
kernel offset. -/
theorem Fs.flush_spec (s : Fs) (ho : s.fdOpen = true) (hor : s.oracle = []) :
    ∃ n t, s.flush = (t, .ok n) ∧
      t.mode = s.mode ∧ t.fdOpen = true ∧ t.oracle = [] ∧
      t.currentOffset = s.currentOffset ∧ t.fileSize = s.fileSize ∧
      ((((s.mode = Mode.Write ∨ s.mode = Mode.ReadWrite) ∧ s.buffer.data ≠ [])) →
        (t.buffer.data = [] ∧ t.file = osWriteAt s.file s.filePos s.buffer.data ∧
         t.filePos = s.filePos + s.buffer.data.length ∧ n = s.buffer.data.length ∧
         t.nativeWrites = s.nativeWrites + 1)) ∧
      ((¬ ((s.mode = Mode.Write ∨ s.mode = Mode.ReadWrite) ∧ s.buffer.data ≠ [])) →
        (t = s ∧ n = 0)) := by
  by_cases hcond : (s.mode = Mode.Write ∨ s.mode = Mode.ReadWrite) ∧ s.buffer.data ≠ []
  · have hhas : ((s.mode = Mode.Write ∨ s.mode = Mode.ReadWrite) ∧ s.buffer.hasData = true) :=
      ⟨hcond.1, (IOBuffer.hasData_iff _).mpr hcond.2⟩
    refine ⟨s.buffer.data.length,
      { s with file := osWriteAt s.file s.filePos s.buffer.data,
               filePos := s.filePos + s.buffer.data.length,
               oracle := [], nativeWrites := s.nativeWrites + 1,
               buffer := ⟨[]⟩ }, ?_, rfl, ho, rfl, rfl, rfl, ?_, ?_⟩
    · simp [Fs.flush, Fs.nativeWrite, hhas, ho, hor, IOBuffer.reset, List.take_length]
    · intro _
      exact ⟨rfl, rfl, rfl, rfl, rfl⟩
    · intro hn
      exact absurd hcond hn
  · have hhas : ¬ ((s.mode = Mode.Write ∨ s.mode = Mode.ReadWrite) ∧ s.buffer.hasData = true) := by
      rw [IOBuffer.hasData_iff]
      exact hcond
    refine ⟨0, s, ?_, rfl, ho, hor, rfl, rfl, ?_, ?_⟩
    · simp [Fs.flush, hhas]
    · intro hc
      exact absurd hc hcond
    · intro _
      exact ⟨rfl, rfl⟩

/-- Unfolding of one loop iteration. -/
theorem writeLoop_succ (fuel : Nat) (s : Fs) (rem : List byte_t) (len tot : Nat) :
    writeLoop (fuel + 1) s rem len tot =
      match writeStep s rem len with
      | .inr r => some r
      | .inl (s2, nWritten) =>
        let nTotal' := tot + nWritten
        if s2.currentOffset + nTotal' ≥ MAX_WRITE_FILE_SIZE then
          some (s2, .error .sizeLimit)
        else if nTotal' < len then
          writeLoop fuel s2 (rem.drop nWritten) len nTotal'
        else
          some (writeFinish s2 nTotal') := rfl


/-- On a writable live stream with full native writes, one loop iteration
never exits early: it stages `min(rem, capacity - cursor)` bytes, flushes
whenever the guard `nWritten < length` fires, and continues.  The staged
or flushed bytes are accounted for by `file ++ buffer`. -/
theorem writeStep_spec (s : Fs) (rem : List byte_t) (len : Nat)
    (hw : s.mode = Mode.Write ∨ s.mode = Mode.ReadWrite) (ho : s.fdOpen = true)
    (hor : s.oracle = []) (hfp : s.filePos = s.file.length)
    (hb : s.buffer.data.length ≤ kBufferSize) :
    ∃ s2, writeStep s rem len = .inl (s2, min rem.length (kBufferSize - s.buffer.data.length)) ∧
      s2.mode = s.mode ∧ s2.fdOpen = true ∧ s2.oracle = [] ∧
      s2.filePos = s2.file.length ∧
      s2.buffer.data.length ≤ kBufferSize ∧
      s2.currentOffset = s.currentOffset ∧ s2.fileSize = s.fileSize ∧
      s2.file ++ s2.buffer.data
        = s.file ++ s.buffer.data ++ rem.take (min rem.length (kBufferSize - s.buffer.data.length)) ∧
      (min rem.length (kBufferSize - s.buffer.data.length) < len → s2.buffer.data = []) ∧
      (¬ min rem.length (kBufferSize - s.buffer.data.length) < len →
        s2 = { s with buffer :=
          ⟨s.buffer.data ++ rem.take (min rem.length (kBufferSize - s.buffer.data.length))⟩ }) ∧
      ((min rem.length (kBufferSize - s.buffer.data.length) < len ∧
          s.buffer.data ++ rem.take (min rem.length (kBufferSize - s.buffer.data.length)) ≠ []) →
        s2.nativeWrites = s.nativeWrites + 1) ∧
      ((min rem.length (kBufferSize - s.buffer.data.length) < len →
          s.buffer.data ++ rem.take (min rem.length (kBufferSize - s.buffer.data.length)) = []) →
        s2.nativeWrites = s.nativeWrites) := by
  have hnW_le_rem : min rem.length (kBufferSize - s.buffer.data.length) ≤ rem.length :=
    Nat.min_le_left _ _
  have hnW_le_cap :
      min rem.length (kBufferSize - s.buffer.data.length) ≤ kBufferSize - s.buffer.data.length :=
    Nat.min_le_right _ _
  have htake : (rem.take (min rem.length (kBufferSize - s.buffer.data.length))).length
      = min rem.length (kBufferSize - s.buffer.data.length) := by
    simp [List.length_take, Nat.min_eq_left hnW_le_rem]
  obtain ⟨m, fsz, off, ⟨bd⟩, fdo, fl, fp, orc, nw⟩ := s
  simp only at hw ho hor hfp hb hnW_le_rem hnW_le_cap htake ⊢
  subst ho hor hfp
  set nW := min rem.length (kBufferSize - bd.length) with hnW
  set s1 : Fs := ({ mode := m, fileSize := fsz, currentOffset := off,
                    buffer := ⟨bd ++ rem.take nW⟩, fdOpen := true, file := fl,
                    filePos := fl.length, oracle := [], nativeWrites := nw } : Fs) with hs1
  have hstep : writeStep { mode := m, fileSize := fsz, currentOffset := off,
                           buffer := ⟨bd⟩, fdOpen := true, file := fl, filePos := fl.length,
                           oracle := [], nativeWrites := nw } rem len =
      (if nW < len then
         match s1.flush with
         | (s2, .ok nFlushed) =>
           if nFlushed < nW then .inr (s2, .ok nFlushed) else .inl (s2, nW)
         | (s2, .error e) => .inr (s2, .error e)
       else .inl (s1, nW)) := by
    unfold writeStep
    rw [IOBuffer.write_eq]
  have hs1len : s1.buffer.data.length = bd.length + nW := by
    simp [hs1, htake]
  by_cases hguard : nW < len
  · -- the guard fires: the buffer is flushed
    obtain ⟨n, t, hfl, htm, hto, htor, htoff, htsz, hfull, hnone⟩ :=
      Fs.flush_spec s1 rfl rfl
    by_cases hempty : s1.buffer.data = []
    · -- nothing was staged, and nothing was accepted either
      have hparts : bd = [] ∧ rem.take nW = [] := by
        simpa [hs1] using hempty
      have hnW0 : nW = 0 := by
        have := htake
        rw [hparts.2] at this
        simpa using this.symm
      have hcond : ¬ ((s1.mode = Mode.Write ∨ s1.mode = Mode.ReadWrite) ∧ s1.buffer.data ≠ []) :=
        fun hc => hc.2 hempty
      obtain ⟨hts, hn0⟩ := hnone hcond
      refine ⟨s1, ?_, rfl, rfl, rfl, ?_, ?_, rfl, rfl, ?_, fun _ => hempty,
        fun hng => absurd hguard hng, fun hB => absurd hempty hB.2, fun _ => rfl⟩
      · rw [hstep, if_pos hguard, hfl, hn0, hnW0, hts]
        simp
      · simp [hs1]
      · rw [hs1len]
        omega
      · simp [hs1, List.append_assoc]
    · -- staged bytes exist: a full native write empties the buffer
      obtain ⟨htb, htf, htfp, hn, htnw⟩ := hfull ⟨hw, hempty⟩
      have hnoearly : ¬ (n < nW) := by
        rw [hn, hs1len]
        omega
      have hfile : t.file = fl ++ (bd ++ rem.take nW) := by
        rw [htf]
        have : s1.filePos = s1.file.length := by simp [hs1]
        rw [this, osWriteAt_append]
      refine ⟨t, ?_, htm, hto, htor, ?_, ?_, htoff, htsz, ?_, fun _ => htb,
        fun hng => absurd hguard hng, fun _ => htnw, fun hC => absurd (hC hguard) hempty⟩
      · rw [hstep, if_pos hguard, hfl]
        simp [hnoearly]
      · rw [htfp, hfile, hs1len]
        simp [hs1, List.length_append]
        omega
      · rw [htb]
        simp [kBufferSize]
      · rw [htb, hfile]
        simp [List.append_assoc]
  · -- no flush: the whole request fit in the buffer
    refine ⟨s1, ?_, rfl, rfl, rfl, ?_, ?_, rfl, rfl, ?_, fun hc => absurd hc hguard,
        fun _ => rfl, fun hB => absurd hB.1 hguard, fun _ => rfl⟩
    · rw [hstep, if_neg hguard]
    · simp [hs1]
    · rw [hs1len]
      omega
    · simp [hs1, List.append_assoc]

/-- Loop unfolding when the iteration continues. -/
theorem writeLoop_succ_inl (f : Nat) (s s2 : Fs) (rem : List byte_t) (len tot nW : Nat)
    (h : writeStep s rem len = .inl (s2, nW)) :
    writeLoop (f + 1) s rem len tot =
      (if s2.currentOffset + (tot + nW) ≥ MAX_WRITE_FILE_SIZE then
        some (s2, .error .sizeLimit)
      else if tot + nW < len then
        writeLoop f s2 (rem.drop nW) len (tot + nW)
      else
        some (writeFinish s2 (tot + nW))) := by
  rw [writeLoop_succ, h]

/-- Loop unfolding when the iteration exits early. -/
theorem writeLoop_succ_inr (f : Nat) (s : Fs) (rem : List byte_t) (len tot : Nat)
    (r : Fs × Except FsError Nat) (h : writeStep s rem len = .inr r) :
    writeLoop (f + 1) s rem len tot = some r := by
  rw [writeLoop_succ, h]

/-- Main specification of the write loop on a writable live stream with
full native writes, when the size guard never fires: it accepts all of
`rem`, keeps `file ++ buffer` equal to the old contents followed by `rem`,
advances the logical cursor by the full length and extends the logical
size to the cursor.  The fuel bound `2 |rem| + (1 or 2)` is sufficient. -/
theorem writeLoop_ok (fuel : Nat) : ∀ (s : Fs) (rem : List byte_t) (len tot : Nat),
    (s.mode = Mode.Write ∨ s.mode = Mode.ReadWrite) → s.fdOpen = true →
    s.oracle = [] → s.filePos = s.file.length →
    s.buffer.data.length ≤ kBufferSize →
    len = tot + rem.length →
    s.currentOffset + len < MAX_WRITE_FILE_SIZE →
    2 * rem.length + (if s.buffer.data = [] then 1 else 2) ≤ fuel →
    ∃ s', writeLoop fuel s rem len tot = some (s', .ok len) ∧
      s'.mode = s.mode ∧ s'.fdOpen = true ∧ s'.oracle = [] ∧
      s'.filePos = s'.file.length ∧ s'.buffer.data.length ≤ kBufferSize ∧
      s'.file ++ s'.buffer.data = s.file ++ s.buffer.data ++ rem ∧
      s'.currentOffset = s.currentOffset + len ∧
      s'.fileSize = max s.fileSize (s.currentOffset + len) := by
  induction fuel with
  | zero =>
    intro s rem len tot _ _ _ _ _ _ _ hfuel
    split at hfuel <;> omega
  | succ f ih =>
    intro s rem len tot hw ho hor hfp hb hlen hmax hfuel
    obtain ⟨s2, hstep, hm2, ho2, hor2, hfp2, hb2, hoff2, hsz2, heq2, hbe2, -, -, -⟩ :=
      writeStep_spec s rem len hw ho hor hfp hb
    have hnW_rem : min rem.length (kBufferSize - s.buffer.data.length) ≤ rem.length :=
      Nat.min_le_left _ _
    set nW := min rem.length (kBufferSize - s.buffer.data.length) with hnW
    rw [writeLoop_succ_inl f s s2 rem len tot nW hstep]
    have hguard_max : ¬ (s2.currentOffset + (tot + nW) ≥ MAX_WRITE_FILE_SIZE) := by
      rw [hoff2]
      omega
    rw [if_neg hguard_max]
    have hB1 : 2 * rem.length + 1 ≤ f + 1 := by
      split at hfuel <;> omega
    by_cases hrec : tot + nW < len
    · -- recursive case: the buffer was flushed this iteration
      rw [if_pos hrec]
      have hbe : s2.buffer.data = [] := hbe2 (by omega)
      have hfuel' : 2 * (rem.drop nW).length + (if s2.buffer.data = [] then 1 else 2) ≤ f := by
        rw [hbe, if_pos rfl, List.length_drop]
        by_cases h0 : nW = 0
        · -- no byte was accepted, so the staging buffer must have been full
          have hrl : 0 < rem.length := by omega
          have hbfull : kBufferSize ≤ s.buffer.data.length := by omega
          have hbneq : s.buffer.data ≠ [] := by
            have : 0 < s.buffer.data.length := by
              have : 0 < kBufferSize := by norm_num [kBufferSize]
              omega
            exact List.ne_nil_of_length_pos this
          rw [if_neg hbneq] at hfuel
          omega
        · omega
      obtain ⟨s', hrun, hm', ho', hor', hfp', hb', heq', hoff', hsz'⟩ :=
        ih s2 (rem.drop nW) len (tot + nW) (hm2 ▸ hw) ho2 hor2 hfp2 hb2
          (by rw [List.length_drop]; omega) (by rw [hoff2]; omega) hfuel'
      refine ⟨s', hrun, hm'.trans hm2, ho', hor', hfp', hb', ?_, ?_, ?_⟩
      · rw [heq', heq2, List.append_assoc, List.append_assoc, List.append_assoc]
        rw [List.take_append_drop]
      · rw [hoff', hoff2]
      · rw [hsz', hsz2, hoff2]
    · -- final iteration: everything has been accepted
      rw [if_neg hrec]
      have hnWeq : nW = rem.length := by omega
      have htot : tot + nW = len := by omega
      refine ⟨{ s2 with
                  currentOffset := s2.currentOffset + (tot + nW),
                  fileSize := if s2.currentOffset + (tot + nW) > s2.fileSize
                              then s2.currentOffset + (tot + nW) else s2.fileSize },
              ?_, hm2, ho2, hor2, hfp2, hb2, ?_, ?_, ?_⟩
      · simp only [writeFinish, htot]
      · simp only []
        rw [heq2, hnWeq, List.take_length]
      · simp only []
        rw [hoff2, htot]
      · simp only []
        rw [hoff2, hsz2, htot, Nat.max_def]
        split <;> split <;> omega

/-- When the cumulative offset reaches the configured maximum, the loop
raises the size-limit error, leaving the logical cursor and the logical
size untouched (the throw happens before the epilogue updates them). -/
theorem writeLoop_limit (fuel : Nat) : ∀ (s : Fs) (rem : List byte_t) (len tot : Nat),
    (s.mode = Mode.Write ∨ s.mode = Mode.ReadWrite) → s.fdOpen = true →
    s.oracle = [] → s.filePos = s.file.length →
    s.buffer.data.length ≤ kBufferSize →
    len = tot + rem.length →
    MAX_WRITE_FILE_SIZE ≤ s.currentOffset + len →
    2 * rem.length + (if s.buffer.data = [] then 1 else 2) ≤ fuel →
    ∃ s', writeLoop fuel s rem len tot = some (s', .error .sizeLimit) ∧
      s'.currentOffset = s.currentOffset ∧ s'.fileSize = s.fileSize := by
  induction fuel with
  | zero =>
    intro s rem len tot _ _ _ _ _ _ _ hfuel
    split at hfuel <;> omega
  | succ f ih =>
    intro s rem len tot hw ho hor hfp hb hlen hmax hfuel
    obtain ⟨s2, hstep, hm2, ho2, hor2, hfp2, hb2, hoff2, hsz2, heq2, hbe2, -, -, -⟩ :=
      writeStep_spec s rem len hw ho hor hfp hb
    have hnW_rem : min rem.length (kBufferSize - s.buffer.data.length) ≤ rem.length :=
      Nat.min_le_left _ _
    set nW := min rem.length (kBufferSize - s.buffer.data.length) with hnW
    rw [writeLoop_succ_inl f s s2 rem len tot nW hstep]
    by_cases hguard_max : s2.currentOffset + (tot + nW) ≥ MAX_WRITE_FILE_SIZE
    · -- the guard fires in this iteration
      rw [if_pos hguard_max]
      exact ⟨s2, rfl, hoff2, hsz2⟩
    · -- not yet at the cap: the loop must continue, for the request
      -- reaches the cap only with bytes still to stage
      rw [if_neg hguard_max]
      have hrec : tot + nW < len := by
        rw [hoff2] at hguard_max
        omega
      rw [if_pos hrec]
      have hbe : s2.buffer.data = [] := hbe2 (by omega)
      have hB1 : 2 * rem.length + 1 ≤ f + 1 := by
        split at hfuel <;> omega
      have hfuel' : 2 * (rem.drop nW).length + (if s2.buffer.data = [] then 1 else 2) ≤ f := by
        rw [hbe, if_pos rfl, List.length_drop]
        by_cases h0 : nW = 0
        · have hrl : 0 < rem.length := by omega
          have hbfull : kBufferSize ≤ s.buffer.data.length := by omega
          have hbneq : s.buffer.data ≠ [] := by
            have h4 : 0 < kBufferSize := by norm_num [kBufferSize]
            exact List.ne_nil_of_length_pos (by omega)
          rw [if_neg hbneq] at hfuel
          omega
        · omega
      obtain ⟨s', hrun, hoff', hsz'⟩ :=
        ih s2 (rem.drop nW) len (tot + nW) (hm2 ▸ hw) ho2 hor2 hfp2 hb2
          (by rw [List.length_drop]; omega) (by rw [hoff2]; omega) hfuel'
      exact ⟨s', hrun, hoff'.trans hoff2, hsz'.trans hsz2⟩

/-- Top-level specification of `FileStreamImpl::write` on a writable live
stream with full native writes, below the size cap. -/
theorem Fs.write_spec (s : Fs) (data : List byte_t)
    (hw : s.mode = Mode.Write ∨ s.mode = Mode.ReadWrite) (ho : s.fdOpen = true)
    (hor : s.oracle = []) (hfp : s.filePos = s.file.length)
    (hb : s.buffer.data.length ≤ kBufferSize)
    (hmax : s.currentOffset + data.length < MAX_WRITE_FILE_SIZE) :
    ∃ s', s.write data = some (s', .ok data.length) ∧
      s'.mode = s.mode ∧ s'.fdOpen = true ∧ s'.oracle = [] ∧
      s'.filePos = s'.file.length ∧ s'.buffer.data.length ≤ kBufferSize ∧
      s'.file ++ s'.buffer.data = s.file ++ s.buffer.data ++ data ∧
      s'.currentOffset = s.currentOffset + data.length ∧
      s'.fileSize = max s.fileSize (s.currentOffset + data.length) := by
  unfold Fs.write
  exact writeLoop_ok (2 * data.length + 2) s data data.length 0 hw ho hor hfp hb
    (by omega) hmax (by split <;> omega)

/-- `close` on a live descriptor with full native writes: the staged bytes
reach the file and the descriptor dies. -/
theorem Fs.close_spec (s : Fs) (ho : s.fdOpen = true) (hor : s.oracle = [])
    (hfp : s.filePos = s.file.length)
    (hw : s.mode = Mode.Write ∨ s.mode = Mode.ReadWrite) :
    ∃ t, s.close = (t, .ok ()) ∧ t.file = s.file ++ s.buffer.data ∧ t.fdOpen = false := by
  obtain ⟨n, t, hfl, htm, hto, htor, htoff, htsz, hfull, hnone⟩ := Fs.flush_spec s ho hor
  by_cases hbd : s.buffer.data = []
  · obtain ⟨hts, -⟩ := hnone (fun hc => hc.2 hbd)
    refine ⟨{ t with fdOpen := false }, ?_, ?_, rfl⟩
    · unfold Fs.close
      rw [hfl]
      simp [hto]
    · rw [hts, hbd]
      simp
  · obtain ⟨-, htf, -, -, -⟩ := hfull ⟨hw, hbd⟩
    refine ⟨{ t with fdOpen := false }, ?_, ?_, rfl⟩
    · unfold Fs.close
      rw [hfl]
      simp [hto]
    · simp only []
      rw [htf, hfp, osWriteAt_append]

/-- Unfolded form of `writeStep` (the buffer staging written out). -/
theorem writeStep_eq (s : Fs) (rem : List byte_t) (len : Nat) :
    writeStep s rem len =
      (if min rem.length (kBufferSize - s.buffer.data.length) < len then
        match ({ s with buffer :=
            ⟨s.buffer.data ++ rem.take (min rem.length (kBufferSize - s.buffer.data.length))⟩ } : Fs).flush with
        | (s2, .ok nF) =>
          if nF < min rem.length (kBufferSize - s.buffer.data.length) then .inr (s2, .ok nF)
          else .inl (s2, min rem.length (kBufferSize - s.buffer.data.length))
        | (s2, .error e) => .inr (s2, .error e)
      else .inl ({ s with buffer :=
            ⟨s.buffer.data ++ rem.take (min rem.length (kBufferSize - s.buffer.data.length))⟩ },
          min rem.length (kBufferSize - s.buffer.data.length))) := by
  unfold writeStep
  rw [IOBuffer.write_eq]

/-- Whatever a loop iteration does, the state it hands on (or exits with)
keeps the mode, the descriptor liveness and both logical counters of the
entry state: only the epilogue ever touches `currentOffset`/`fileSize`. -/
theorem writeStep_frame (s : Fs) (rem : List byte_t) (len : Nat) (u : Fs) :
    ((∃ nW, writeStep s rem len = .inl (u, nW)) ∨ (∃ r, writeStep s rem len = .inr (u, r))) →
    u.mode = s.mode ∧ u.fdOpen = s.fdOpen ∧ u.currentOffset = s.currentOffset ∧
    u.fileSize = s.fileSize := by
  intro hor
  have hfr := Fs.flush_frame ({ s with buffer :=
    ⟨s.buffer.data ++ rem.take (min rem.length (kBufferSize - s.buffer.data.length))⟩ } : Fs)
  rcases hor with ⟨nW, h⟩ | ⟨r, h⟩
  · rw [writeStep_eq] at h
    split at h
    · split at h
      next s2 nF heq =>
        rw [heq] at hfr
        split at h
        · cases h
        · cases h
          exact ⟨hfr.1, hfr.2.2.2, hfr.2.1, hfr.2.2.1⟩
      next s2 e heq =>
        cases h
    · cases h
      exact ⟨rfl, rfl, rfl, rfl⟩
  · rw [writeStep_eq] at h
    split at h
    · split at h
      next s2 nF heq =>
        rw [heq] at hfr
        split at h
        · cases h
          exact ⟨hfr.1, hfr.2.2.2, hfr.2.1, hfr.2.2.1⟩
        · cases h
      next s2 e heq =>
        rw [heq] at hfr
        cases h
        exact ⟨hfr.1, hfr.2.2.2, hfr.2.1, hfr.2.2.1⟩
    · cases h

/-- Any outcome of the write loop keeps the mode and descriptor liveness,
and preserves the cursor-at-most-size invariant. -/
theorem writeLoop_frame (fuel : Nat) : ∀ (s : Fs) (rem : List byte_t) (len tot : Nat)
    (s' : Fs) (r : Except FsError Nat), writeLoop fuel s rem len tot = some (s', r) →
    s'.mode = s.mode ∧ s'.fdOpen = s.fdOpen ∧
    (s.currentOffset ≤ s.fileSize → s'.currentOffset ≤ s'.fileSize) := by
  induction fuel with
  | zero =>
    intro s rem len tot s' r h
    simp [writeLoop] at h
  | succ f ih =>
    intro s rem len tot s' r h
    cases hst : writeStep s rem len with
    | inl pr =>
      obtain ⟨s2, nW⟩ := pr
      rw [writeLoop_succ_inl f s s2 rem len tot nW hst] at h
      obtain ⟨hm2, ho2, hoff2, hsz2⟩ := writeStep_frame s rem len s2 (Or.inl ⟨nW, hst⟩)
      split at h
      · cases h
        exact ⟨hm2, ho2, fun hinv => by rw [hoff2, hsz2]; exact hinv⟩
      · split at h
        · obtain ⟨hm', ho', hinv'⟩ := ih s2 (rem.drop nW) len (tot + nW) s' r h
          refine ⟨hm'.trans hm2, ho'.trans ho2, fun hinv => ?_⟩
          exact hinv' (by rw [hoff2, hsz2]; exact hinv)
        · cases h
          refine ⟨hm2, ho2, fun _ => ?_⟩
          simp only [writeFinish]
          split <;> omega
    | inr pr =>
      obtain ⟨u, r2⟩ := pr
      obtain ⟨hm, ho, hoff, hsz⟩ := writeStep_frame s rem len u (Or.inr ⟨r2, hst⟩)
      rw [writeLoop_succ_inr f s rem len tot (u, r2) hst] at h
      cases h
      exact ⟨hm, ho, fun hinv => by rw [hoff, hsz]; exact hinv⟩

/-- `seek` after a successful flush on a live descriptor: reposition, set
the cursor, extend the size when passed. -/
theorem Fs.seek_eq_ok (s s1 : Fs) (n p : Nat)
    (hfl : s.flush = (s1, .ok n)) (ho : s1.fdOpen = true) :
    s.seek p = ({ s1 with
                    filePos := p, currentOffset := p,
                    fileSize := if p > s1.fileSize then p else s1.fileSize }, .ok ()) := by
  unfold Fs.seek
  rw [hfl]
  simp [ho]

/-- `seek` on a dead descriptor: `lseek` fails after the flush. -/
theorem Fs.seek_eq_closed (s s1 : Fs) (n p : Nat)
    (hfl : s.flush = (s1, .ok n)) (ho : s1.fdOpen = false) :
    s.seek p = (s1, .error .seekFail) := by
  unfold Fs.seek
  rw [hfl]
  simp [ho]

/-- `seek` propagates a flush failure. -/
theorem Fs.seek_eq_error (s s1 : Fs) (e : FsError) (p : Nat)
    (hfl : s.flush = (s1, .error e)) :
    s.seek p = (s1, .error e) := by
  unfold Fs.seek
  rw [hfl]

/-- `seek` keeps the mode and descriptor liveness and preserves the
cursor-at-most-size invariant (the size is extended to the target when
the cursor passes it). -/
theorem Fs.seek_frame (s : Fs) (p : Nat) :
    (s.seek p).1.mode = s.mode ∧ (s.seek p).1.fdOpen = s.fdOpen ∧
    (s.currentOffset ≤ s.fileSize → (s.seek p).1.currentOffset ≤ (s.seek p).1.fileSize) := by
  have hfr := Fs.flush_frame s
  rcases hfl : s.flush with ⟨s1, rf⟩
  rw [hfl] at hfr
  have hm1 : s1.mode = s.mode := hfr.1
  have hoff1 : s1.currentOffset = s.currentOffset := hfr.2.1
  have hsz1 : s1.fileSize = s.fileSize := hfr.2.2.1
  have ho1 : s1.fdOpen = s.fdOpen := hfr.2.2.2
  cases rf with
  | ok n =>
    by_cases ho : s1.fdOpen = true
    · rw [Fs.seek_eq_ok s s1 n p hfl ho]
      refine ⟨hm1, ho1, fun _ => ?_⟩
      show p ≤ (if p > s1.fileSize then p else s1.fileSize)
      split <;> omega
    · replace ho : s1.fdOpen = false := by simpa using ho
      rw [Fs.seek_eq_closed s s1 n p hfl ho]
      refine ⟨hm1, ho1, fun hinv => ?_⟩
      show s1.currentOffset ≤ s1.fileSize
      omega
  | error e =>
    rw [Fs.seek_eq_error s s1 e p hfl]
    refine ⟨hm1, ho1, fun hinv => ?_⟩
    show s1.currentOffset ≤ s1.fileSize
    omega

/-- `readsome` keeps the mode and descriptor liveness; thanks to the EOF
clamp (and a short native read never over-reading), the cursor stays at
most the logical size. -/
theorem FileStream.readsome_frame (s : Fs) (n : Nat) :
    (FileStream.readsome s n).1.mode = s.mode ∧ (FileStream.readsome s n).1.fdOpen = s.fdOpen ∧
    (s.currentOffset ≤ s.fileSize →
      (FileStream.readsome s n).1.currentOffset ≤ (FileStream.readsome s n).1.fileSize) := by
  unfold FileStream.readsome Fs.read
  by_cases ho : s.fdOpen = true
  · rw [if_pos ho]
    refine ⟨rfl, rfl, fun hinv => ?_⟩
    show s.currentOffset + _ ≤ s.fileSize
    by_cases hclamp : s.currentOffset + n ≥ s.fileSize
    · rw [if_pos hclamp]
      have hle : ((s.file.drop s.filePos).take (s.fileSize - s.currentOffset)).length
          ≤ s.fileSize - s.currentOffset := by
        simp [List.length_take]
      omega
    · rw [if_neg hclamp]
      have hle : ((s.file.drop s.filePos).take n).length ≤ n := by
        simp [List.length_take]
      omega
  · rw [if_neg ho]
    exact ⟨rfl, rfl, fun hinv => hinv⟩

/-- One public operation preserves the cursor-at-most-size invariant. -/
theorem runOp_inv (s : Fs) (op : Op) (t : Fs) (h : runOp s op = some t)
    (hinv : s.currentOffset ≤ s.fileSize) : t.currentOffset ≤ t.fileSize := by
  cases op with
  | write d =>
    simp only [runOp] at h
    rcases hw : Fs.write s d with _ | ⟨s', r⟩
    · rw [hw] at h
      simp at h
    · rw [hw] at h
      simp only [Option.map_some'] at h
      have ht : s' = t := by
        simpa using h
      subst ht
      unfold Fs.write at hw
      exact (writeLoop_frame _ s d d.length 0 s' r hw).2.2 hinv
  | seek p =>
    simp only [runOp, Option.some.injEq] at h
    subst h
    exact (Fs.seek_frame s p).2.2 hinv
  | read n =>
    simp only [runOp, Option.some.injEq] at h
    subst h
    exact (FileStream.readsome_frame s n).2.2 hinv

/-- A sequence of public operations preserves the invariant. -/
theorem runOps_inv (ops : List Op) : ∀ (s t : Fs), runOps s ops = some t →
    s.currentOffset ≤ s.fileSize → t.currentOffset ≤ t.fileSize := by
  induction ops with
  | nil =>
    intro s t h hinv
    cases h
    exact hinv
  | cons op ops ih =>
    intro s t h hinv
    unfold runOps at h
    rcases hop : runOp s op with _ | u
    · rw [hop] at h
      cases h
    · rw [hop] at h
      exact ih u t h (runOp_inv s op u hop hinv)

/-! ### Claim theorems -/

/-- Claim C1 (confirmed, for every length below the configured write cap):
for every byte sequence, opening a fresh file for writing, writing the
bytes, closing, reopening in `Read` mode and reading from offset 0 yields
exactly the same bytes.  (Lengths at or above `MAX_WRITE_FILE_SIZE` cannot
be written at all — the guard of claim C2 fires — so the round trip is
stated below the cap; this covers every length the claim enumerates:
0, 1, 4095, 4096, 4097 and the multiples of 4096 up to the cap.) -/
theorem c1_round_trip (data : List byte_t) (h : data.length < MAX_WRITE_FILE_SIZE) :
    roundTrip data = some (.ok data) := by
  obtain ⟨s1, hrun, hm, ho, hor, hfp, hb, heq, hoff, hsz⟩ :=
    Fs.write_spec freshWrite data (Or.inl rfl) rfl rfl rfl
      (by simp [freshWrite, freshOpen])
      (by simpa [freshWrite, freshOpen] using h)
  obtain ⟨s2, hclose, hfile2, -⟩ :=
    Fs.close_spec s1 ho hor hfp (by rw [hm]; exact Or.inl rfl)
  have hs2file : s2.file = data := by
    rw [hfile2, heq]
    simp [freshWrite, freshOpen]
  have hread : (FileStream.readsome (freshOpen Mode.Read s2.file) data.length).2
      = .ok data := by
    rw [hs2file]
    unfold FileStream.readsome Fs.read
    simp [freshOpen]
  simp only [roundTrip, hrun, hclose, hread]

/-- Witness for C1 at a concrete byte sequence. -/
theorem c1_round_trip_witness : roundTrip [3, 1, 4] = some (.ok [3, 1, 4]) :=
  c1_round_trip [3, 1, 4] (by norm_num [MAX_WRITE_FILE_SIZE])

/-- Counterexample to claim C2 as stated: `seek` extends the logical size
past the configured maximum without any check, so a subsequent write does
fail with the size-limit error, yet `size()` after the failure (2·10⁹)
exceeds the limit (10⁹).  (Note also that the configured maximum is
`1'000'000'000` bytes — decimal 1 GB — not 1 GiB = 2³⁰.) -/
theorem c2_counterexample :
    (Fs.write ((Fs.seek freshWrite 2000000000).1) [0]).map
        (fun r => (r.2, FileStream.size r.1)) = some (.error .sizeLimit, 2000000000) ∧
    MAX_WRITE_FILE_SIZE < 2000000000 ∧ MAX_WRITE_FILE_SIZE ≠ 2 ^ 30 :=
  ⟨rfl, by norm_num [MAX_WRITE_FILE_SIZE], by norm_num [MAX_WRITE_FILE_SIZE]⟩

/-- Claim C2 as amended: on a writable live stream with full native
writes, a write whose cumulative logical offset would reach or exceed the
configured maximum (10⁹ bytes) fails with the size-limit error and leaves
`tell()` and `size()` unchanged — so `size()` stays within the limit
whenever it was within it before the write (a prior `seek` past the limit
being the only way it was not). -/
theorem c2_size_limit (s : Fs) (data : List byte_t)
    (hw : s.mode = Mode.Write ∨ s.mode = Mode.ReadWrite) (ho : s.fdOpen = true)
    (hor : s.oracle = []) (hfp : s.filePos = s.file.length)
    (hb : s.buffer.data.length ≤ kBufferSize)
    (hexceed : MAX_WRITE_FILE_SIZE ≤ s.currentOffset + data.length) :
    ∃ s', s.write data = some (s', .error .sizeLimit) ∧
      FileStream.tell s' = FileStream.tell s ∧
      FileStream.size s' = FileStream.size s ∧
      (FileStream.size s ≤ MAX_WRITE_FILE_SIZE →
        FileStream.size s' ≤ MAX_WRITE_FILE_SIZE) := by
  obtain ⟨s', hrun, hoff, hsz⟩ :=
    writeLoop_limit (2 * data.length + 2) s data data.length 0 hw ho hor hfp hb
      (by omega) hexceed (by split <;> omega)
  exact ⟨s', hrun, hoff, hsz, fun hle => by
    show s'.fileSize ≤ MAX_WRITE_FILE_SIZE
    have h1 : s'.fileSize = s.fileSize := hsz
    have h2 : s.fileSize ≤ MAX_WRITE_FILE_SIZE := hle
    omega⟩

/-- Witness for C2 (amended) near the limit. -/
theorem c2_size_limit_witness :
    ∃ s', Fs.write { freshWrite with currentOffset := 999999999, fileSize := 999999999 }
        [0, 0] = some (s', .error .sizeLimit) ∧
      FileStream.tell s'
        = FileStream.tell { freshWrite with currentOffset := 999999999, fileSize := 999999999 } ∧
      FileStream.size s'
        = FileStream.size { freshWrite with currentOffset := 999999999, fileSize := 999999999 } ∧
      (FileStream.size { freshWrite with currentOffset := 999999999, fileSize := 999999999 }
          ≤ MAX_WRITE_FILE_SIZE →
        FileStream.size s' ≤ MAX_WRITE_FILE_SIZE) :=
  c2_size_limit _ [0, 0] (Or.inl rfl) rfl rfl rfl (by decide)
    (by norm_num [MAX_WRITE_FILE_SIZE])

/-- Claim C3 (code bug): after `close()` completes on a fresh `Write`-mode
stream, a one-byte write SILENTLY SUCCEEDS — it stages the byte in the
buffer (which can no longer reach the file) and advances `tell()` and
`size()` — instead of failing with a use-after-close error; `read` and
`seek` after close do fail, but with the generic OS-error wrapper
(`EBADF` → `FileStreamError`), and no dedicated use-after-close error kind
exists anywhere in the implementation. -/
theorem c3_use_after_close_bug :
    (Fs.close freshWrite).2 = .ok () ∧
    Fs.write (Fs.close freshWrite).1 [170]
      = some ({ (Fs.close freshWrite).1 with
                  buffer := ⟨[170]⟩, currentOffset := 1, fileSize := 1 }, .ok 1) ∧
    (Fs.read (Fs.close freshWrite).1 5).2 = .error .readFail ∧
    ((Fs.close freshWrite).1.seek 0).2 = .error .seekFail :=
  ⟨rfl, rfl, rfl, rfl⟩

/-- Claim C10 (confirmed): writing zero bytes on an open writable stream
whose cursor is below the configured maximum returns 0 and leaves the
whole stream state — in particular `tell()`, `size()` and the staged
buffer contents — unchanged. -/
theorem c10_zero_write (s : Fs) (ho : s.fdOpen = true)
    (hw : s.mode = Mode.Write ∨ s.mode = Mode.ReadWrite)
    (hlim : FileStream.tell s < MAX_WRITE_FILE_SIZE)
    (hinv : FileStream.tell s ≤ FileStream.size s) :
    Fs.write s [] = some (s, .ok 0) := by
  obtain ⟨m, fsz, off, ⟨bd⟩, fdo, fl, fp, orc, nw⟩ := s
  simp only [FileStream.tell, FileStream.size] at hlim hinv
  have hstep : writeStep ⟨m, fsz, off, ⟨bd⟩, fdo, fl, fp, orc, nw⟩ [] 0 =
      .inl (⟨m, fsz, off, ⟨bd⟩, fdo, fl, fp, orc, nw⟩, 0) := by
    rw [writeStep_eq]
    simp
  show writeLoop (1 + 1) ⟨m, fsz, off, ⟨bd⟩, fdo, fl, fp, orc, nw⟩ [] 0 0
      = some (⟨m, fsz, off, ⟨bd⟩, fdo, fl, fp, orc, nw⟩, .ok 0)
  rw [writeLoop_succ_inl 1 _ _ [] 0 0 0 hstep]
  rw [if_neg (by simp only []; omega), if_neg (by omega)]
  simp [writeFinish]
  intro h
  omega

/-- Witness for C10 at a fresh writable stream. -/
theorem c10_zero_write_witness : Fs.write freshWrite [] = some (freshWrite, .ok 0) :=
  c10_zero_write freshWrite rfl (Or.inl rfl) (by norm_num [FileStream.tell, freshWrite,
    freshOpen, MAX_WRITE_FILE_SIZE]) (by norm_num [FileStream.tell, FileStream.size,
    freshWrite, freshOpen])

/-- Counterexample to claim C5 as stated: after seeking past end-of-file
the logical size (10) exceeds the physical file length (5); a read of 4
bytes at offset 6 is clamped to `size() - tell() = 4` but the native read
finds nothing there and returns 0 bytes, not 4. -/
theorem c5_counterexample :
    (FileStream.readsome ((((freshOpen Mode.Read [1, 2, 3, 4, 5]).seek 10).1.seek 6).1) 4).2
        = .ok [] ∧
    FileStream.size ((((freshOpen Mode.Read [1, 2, 3, 4, 5]).seek 10).1.seek 6).1)
        - FileStream.tell ((((freshOpen Mode.Read [1, 2, 3, 4, 5]).seek 10).1.seek 6).1)
        = 4 :=
  ⟨rfl, rfl⟩

/-- Claim C5 as amended: on an open stream with `tell() <= size()`, a read
whose requested length would cross `size()` is clamped to
`size() - tell()` and returns exactly
`min(size() - tell(), physically available bytes)` — never more than
`size() - tell()`, and never an error; in particular a read at logical
end-of-file returns zero bytes.  Fewer than `size() - tell()` bytes come
back exactly when a seek past end-of-file has pushed the logical size
beyond the physical file. -/
theorem c5_eof_clamp (s : Fs) (n : Nat) (ho : s.fdOpen = true)
    (_hinv : FileStream.tell s ≤ FileStream.size s)
    (hcross : FileStream.size s ≤ FileStream.tell s + n) :
    ∃ bytes : List byte_t,
      (FileStream.readsome s n).2 = .ok bytes ∧
      bytes.length = min (FileStream.size s - FileStream.tell s)
        (s.file.length - s.filePos) ∧
      bytes.length ≤ FileStream.size s - FileStream.tell s ∧
      (FileStream.size s ≤ FileStream.tell s → bytes = []) ∧
      FileStream.tell (FileStream.readsome s n).1
        = FileStream.tell s + bytes.length := by
  have hclamp : s.currentOffset + n ≥ s.fileSize := hcross
  have hlen : ((s.file.drop s.filePos).take (s.fileSize - s.currentOffset)).length
      = min (s.fileSize - s.currentOffset) (s.file.length - s.filePos) := by
    simp [List.length_take]
  refine ⟨(s.file.drop s.filePos).take (s.fileSize - s.currentOffset), ?_, ?_, ?_, ?_, ?_⟩
  · unfold FileStream.readsome Fs.read
    rw [if_pos hclamp, if_pos ho]
  · exact hlen
  · rw [hlen]
    exact Nat.min_le_left _ _
  · intro hle
    have h0 : s.fileSize - s.currentOffset = 0 := by
      have h1 : s.fileSize ≤ s.currentOffset := hle
      omega
    simp [h0]
  · unfold FileStream.readsome Fs.read
    rw [if_pos hclamp, if_pos ho]
    rfl

/-- Witness for C5 (amended) on a short file read to its end. -/
theorem c5_eof_clamp_witness :
    ∃ bytes : List byte_t,
      (FileStream.readsome (freshOpen Mode.Read [1, 2]) 5).2 = .ok bytes ∧
      bytes.length = min (FileStream.size (freshOpen Mode.Read [1, 2])
          - FileStream.tell (freshOpen Mode.Read [1, 2]))
        ((freshOpen Mode.Read [1, 2]).file.length - (freshOpen Mode.Read [1, 2]).filePos) ∧
      bytes.length ≤ FileStream.size (freshOpen Mode.Read [1, 2])
          - FileStream.tell (freshOpen Mode.Read [1, 2]) ∧
      (FileStream.size (freshOpen Mode.Read [1, 2])
          ≤ FileStream.tell (freshOpen Mode.Read [1, 2]) → bytes = []) ∧
      FileStream.tell (FileStream.readsome (freshOpen Mode.Read [1, 2]) 5).1
        = FileStream.tell (freshOpen Mode.Read [1, 2]) + bytes.length :=
  c5_eof_clamp (freshOpen Mode.Read [1, 2]) 5 rfl (by decide) (by decide)

/-- Claim C6 (confirmed): on an open stream (full native writes), `seek P`
succeeds; it first flushes the pending write buffer (on a writable stream
the staged bytes reach the file and the buffer empties), then sets
`tell() = P`; the size becomes `max(size(), P)`, so seeking past the end
extends `size()` to exactly `P` without writing a byte. -/
theorem c6_seek_semantics (s : Fs) (p : Nat) (ho : s.fdOpen = true)
    (hor : s.oracle = []) (hfp : s.filePos = s.file.length) :
    (s.seek p).2 = .ok () ∧
    FileStream.tell (s.seek p).1 = p ∧
    FileStream.size (s.seek p).1 = max (FileStream.size s) p ∧
    (FileStream.size s < p → FileStream.size (s.seek p).1 = p) ∧
    ((s.mode = Mode.Write ∨ s.mode = Mode.ReadWrite) →
      ((s.seek p).1.buffer.data = [] ∧ (s.seek p).1.file = s.file ++ s.buffer.data)) := by
  obtain ⟨n, t, hfl, htm, hto, htor, htoff, htsz, hfull, hnone⟩ := Fs.flush_spec s ho hor
  rw [Fs.seek_eq_ok s t n p hfl hto]
  have hsz : (if p > t.fileSize then p else t.fileSize) = max s.fileSize p := by
    rw [htsz, Nat.max_def]
    split <;> split <;> omega
  refine ⟨rfl, rfl, hsz, fun hlt => ?_, fun hw => ?_⟩
  · show (if p > t.fileSize then p else t.fileSize) = p
    rw [htsz]
    have : FileStream.size s < p := hlt
    show (if p > s.fileSize then p else s.fileSize) = p
    rw [if_pos (by exact this)]
  · by_cases hbd : s.buffer.data = []
    · obtain ⟨hts, -⟩ := hnone (fun hc => hc.2 hbd)
      constructor
      · show t.buffer.data = []
        rw [hts, hbd]
      · show t.file = s.file ++ s.buffer.data
        rw [hts, hbd]
        simp
    · obtain ⟨htb, htf, -, -, -⟩ := hfull ⟨hw, hbd⟩
      refine ⟨htb, ?_⟩
      show t.file = s.file ++ s.buffer.data
      rw [htf, hfp, osWriteAt_append]

/-- A writable stream with two staged bytes, for the C6 witness. -/
def seekWitnessState : Fs :=
  { freshWrite with buffer := ⟨[7, 8]⟩, currentOffset := 2, fileSize := 2 }

/-- Witness for C6: a writable stream with two staged bytes seeking past
its end. -/
theorem c6_seek_semantics_witness :
    (seekWitnessState.seek 10).2 = .ok () ∧
    FileStream.tell (seekWitnessState.seek 10).1 = 10 ∧
    FileStream.size (seekWitnessState.seek 10).1 = max (FileStream.size seekWitnessState) 10 ∧
    (FileStream.size seekWitnessState < 10 →
      FileStream.size (seekWitnessState.seek 10).1 = 10) ∧
    ((seekWitnessState.mode = Mode.Write ∨ seekWitnessState.mode = Mode.ReadWrite) →
      ((seekWitnessState.seek 10).1.buffer.data = [] ∧
       (seekWitnessState.seek 10).1.file
         = seekWitnessState.file ++ seekWitnessState.buffer.data)) :=
  c6_seek_semantics seekWitnessState 10 rfl rfl rfl

/-- Claim C4 (confirmed): starting from a freshly opened stream (any mode,
any pre-existing file contents), after every terminating sequence of
public write/seek/read operations — whether each call returned normally or
threw — `tell() <= size()` holds. -/
theorem c4_cursor_invariant (mode : Mode) (content : List byte_t) (ops : List Op) (s' : Fs)
    (h : runOps (freshOpen mode content) ops = some s') :
    FileStream.tell s' ≤ FileStream.size s' := by
  have h0 : (freshOpen mode content).currentOffset ≤ (freshOpen mode content).fileSize := by
    cases mode <;> simp [freshOpen]
  exact runOps_inv ops (freshOpen mode content) s' h h0

/-- The stream reached by `write [1,2]; seek 2; read 1` from a fresh
writable stream, for the C4 witness. -/
def c4WitnessState : Fs :=
  { mode := Mode.Write, fileSize := 2, currentOffset := 2, buffer := ⟨[]⟩,
    fdOpen := true, file := [1, 2], filePos := 2, oracle := [], nativeWrites := 1 }

/-- Witness for C4 after a write, a seek and a read on a fresh writable
stream. -/
theorem c4_cursor_invariant_witness :
    FileStream.tell c4WitnessState ≤ FileStream.size c4WitnessState :=
  c4_cursor_invariant Mode.Write [] [Op.write [1, 2], Op.seek 2, Op.read 1] c4WitnessState
    (by decide)

/-- Claim C9 (confirmed): `canRead()`/`canWrite()` are functions of the
opening mode alone; the mode survives every operation — `flush`, `seek`,
`readsome`, `write`, and `close` — so in particular a `Write`-mode stream
still reports `canWrite() = true` after `close()`. -/
theorem c9_capability_stability (s : Fs) :
    (∀ t : Fs, s.mode = t.mode →
      FileStream.canRead s = FileStream.canRead t ∧
      FileStream.canWrite s = FileStream.canWrite t) ∧
    (s.close).1.mode = s.mode ∧
    (s.flush).1.mode = s.mode ∧
    (∀ p, (s.seek p).1.mode = s.mode) ∧
    (∀ n, (FileStream.readsome s n).1.mode = s.mode) ∧
    (∀ d r, Fs.write s d = some r → r.1.mode = s.mode) ∧
    (s.mode = Mode.Write → FileStream.canWrite (s.close).1 = true) := by
  have hflush : (s.flush).1.mode = s.mode := (Fs.flush_frame s).1
  have hclose : (s.close).1.mode = s.mode := by
    unfold Fs.close
    rcases hfl : s.flush with ⟨s1, rf⟩
    rw [hfl] at hflush
    cases rf with
    | ok n =>
      by_cases ho : s1.fdOpen = true
      · simp only [ho, if_true]
        exact hflush
      · simp only [ho, if_false]
        exact hflush
    | error e => exact hflush
  refine ⟨?_, hclose, hflush, fun p => (Fs.seek_frame s p).1,
    fun n => (FileStream.readsome_frame s n).1, fun d r hr => ?_, fun hmW => ?_⟩
  · intro t hmode
    unfold FileStream.canRead FileStream.canWrite
    rw [hmode]
    exact ⟨rfl, rfl⟩
  · unfold Fs.write at hr
    exact (writeLoop_frame _ s d d.length 0 r.1 r.2 (by rw [← hr])).1
  · unfold FileStream.canWrite
    rw [hclose, hmW]
    simp

/-- Witness for C9: after closing a fresh `Write`-mode stream,
`canWrite()` still answers `true`. -/
theorem c9_capability_stability_witness :
    FileStream.canWrite (Fs.close freshWrite).1 = true :=
  (c9_capability_stability freshWrite).2.2.2.2.2.2 rfl

/-- `flush` on a writable live stream with staged bytes and no short-write
oracle: the whole buffer is transferred in one native write. -/
theorem Fs.flush_full (s : Fs) (ho : s.fdOpen = true) (hor : s.oracle = [])
    (hw : s.mode = Mode.Write ∨ s.mode = Mode.ReadWrite) (hbd : s.buffer.data ≠ []) :
    s.flush = ({ s with
                   file := osWriteAt s.file s.filePos s.buffer.data,
                   filePos := s.filePos + s.buffer.data.length, oracle := [],
                   nativeWrites := s.nativeWrites + 1, buffer := ⟨[]⟩ },
               .ok s.buffer.data.length) := by
  have hhas : s.buffer.hasData = true := (IOBuffer.hasData_iff _).mpr hbd
  have hnw : s.nativeWrite s.buffer.data =
      ({ s with
           file := osWriteAt s.file s.filePos s.buffer.data,
           filePos := s.filePos + s.buffer.data.length, oracle := [],
           nativeWrites := s.nativeWrites + 1 }, .ok s.buffer.data.length) := by
    unfold Fs.nativeWrite
    rw [if_pos ho, hor]
    simp [List.take_length]
  unfold Fs.flush
  rw [if_pos (show (s.mode = Mode.Write ∨ s.mode = Mode.ReadWrite) ∧ s.buffer.hasData = true
        from ⟨hw, hhas⟩), hnw]
  rfl

/-- `flush` on a writable live stream with staged bytes when the native
write is short: only the oracle head `c` bytes reach the file, yet the
buffer is reset all the same — the remaining staged bytes are lost. -/
theorem Fs.flush_short (s : Fs) (c : Nat) (rest : List Nat) (ho : s.fdOpen = true)
    (hor : s.oracle = c :: rest) (hw : s.mode = Mode.Write ∨ s.mode = Mode.ReadWrite)
    (hbd : s.buffer.data ≠ []) (hc : c ≤ s.buffer.data.length) :
    s.flush = ({ s with
                   file := osWriteAt s.file s.filePos (s.buffer.data.take c),
                   filePos := s.filePos + c, oracle := rest,
                   nativeWrites := s.nativeWrites + 1, buffer := ⟨[]⟩ },
               .ok c) := by
  have hhas : s.buffer.hasData = true := (IOBuffer.hasData_iff _).mpr hbd
  have hnw : s.nativeWrite s.buffer.data =
      ({ s with
           file := osWriteAt s.file s.filePos (s.buffer.data.take c),
           filePos := s.filePos + c, oracle := rest,
           nativeWrites := s.nativeWrites + 1 }, .ok c) := by
    unfold Fs.nativeWrite
    rw [if_pos ho, hor]
    simp [Nat.min_eq_right hc]
  unfold Fs.flush
  rw [if_pos (show (s.mode = Mode.Write ∨ s.mode = Mode.ReadWrite) ∧ s.buffer.hasData = true
        from ⟨hw, hhas⟩), hnw]
  rfl

/-- Writing exactly buffer-capacity bytes into a fresh writable stream
performs no native write: the guard `nWritten < length` is `4096 < 4096`,
so everything stays staged in the buffer. -/
theorem write_cap_stages_only (data : List byte_t) (hlen : data.length = kBufferSize) :
    ∃ s', Fs.write freshWrite data = some (s', .ok kBufferSize) ∧
      s'.nativeWrites = 0 ∧ s'.buffer.data.length = kBufferSize := by
  obtain ⟨s2, hstep, hm2, ho2, hor2, hfp2, hb2, hoff2, hsz2, heq2, hbe2, hnof, hnw1, hnw0⟩ :=
    writeStep_spec freshWrite data kBufferSize (Or.inl rfl) rfl rfl rfl
      (by simp [freshWrite, freshOpen])
  have hmin : min data.length (kBufferSize - freshWrite.buffer.data.length)
      = kBufferSize := by
    simp [freshWrite, freshOpen, hlen]
  rw [hmin] at hstep hnof hnw0
  have hs2 : s2 = { freshWrite with
      buffer := ⟨freshWrite.buffer.data ++ data.take kBufferSize⟩ } :=
    hnof (Nat.lt_irrefl kBufferSize)
  have hnw : s2.nativeWrites = freshWrite.nativeWrites :=
    hnw0 (fun h => absurd h (Nat.lt_irrefl _))
  unfold Fs.write
  rw [hlen]
  rw [show 2 * kBufferSize + 2 = (2 * kBufferSize + 1) + 1 from rfl]
  rw [writeLoop_succ_inl (2 * kBufferSize + 1) freshWrite s2 data kBufferSize 0 kBufferSize
    hstep]
  rw [if_neg (by rw [hoff2]; norm_num [freshWrite, freshOpen, MAX_WRITE_FILE_SIZE,
    kBufferSize])]
  rw [if_neg (by norm_num)]
  refine ⟨(writeFinish s2 (0 + kBufferSize)).1, rfl, ?_, ?_⟩
  · show s2.nativeWrites = 0
    rw [hnw]
    rfl
  · show s2.buffer.data.length = kBufferSize
    rw [hs2]
    show (freshWrite.buffer.data ++ data.take kBufferSize).length = kBufferSize
    simp [freshWrite, freshOpen, List.length_take, hlen]

/-- Writing buffer-capacity + 1 bytes into a fresh writable stream
performs exactly two native writes: one full-buffer flush and one
one-byte flush (the guard fires in both iterations). -/
theorem write_cap1_two_writes (data : List byte_t) (hlen : data.length = kBufferSize + 1) :
    ∃ s', Fs.write freshWrite data = some (s', .ok (kBufferSize + 1)) ∧
      s'.nativeWrites = 2 ∧ s'.buffer.data = [] := by
  obtain ⟨s2, hstep, hm2, ho2, hor2, hfp2, hb2, hoff2, hsz2, heq2, hbe2, hnof, hnw1, hnw0⟩ :=
    writeStep_spec freshWrite data (kBufferSize + 1) (Or.inl rfl) rfl rfl rfl
      (by simp [freshWrite, freshOpen])
  have hmin : min data.length (kBufferSize - freshWrite.buffer.data.length)
      = kBufferSize := by
    simp [freshWrite, freshOpen, hlen]
  rw [hmin] at hstep hbe2 hnw1
  have hguard1 : kBufferSize < kBufferSize + 1 := Nat.lt_succ_self _
  have hbuf1 : freshWrite.buffer.data ++ data.take kBufferSize ≠ [] := by
    have hl : (freshWrite.buffer.data ++ data.take kBufferSize).length = kBufferSize := by
      simp [freshWrite, freshOpen, List.length_take, hlen]
    intro hnil
    rw [hnil] at hl
    simp [kBufferSize] at hl
  have hnwa : s2.nativeWrites = freshWrite.nativeWrites + 1 := hnw1 ⟨hguard1, hbuf1⟩
  have hbea : s2.buffer.data = [] := hbe2 hguard1
  unfold Fs.write
  rw [hlen]
  rw [show 2 * (kBufferSize + 1) + 2 = (2 * (kBufferSize + 1) + 1) + 1 from rfl]
  rw [writeLoop_succ_inl (2 * (kBufferSize + 1) + 1) freshWrite s2 data (kBufferSize + 1) 0
    kBufferSize hstep]
  rw [if_neg (by rw [hoff2]; norm_num [freshWrite, freshOpen, MAX_WRITE_FILE_SIZE,
    kBufferSize])]
  rw [if_pos (by norm_num)]
  obtain ⟨s3, hstep2, hm3, ho3, hor3, hfp3, hb3, hoff3, hsz3, heq3, hbe3, hnof3, hnw13,
      hnw03⟩ :=
    writeStep_spec s2 (data.drop kBufferSize) (kBufferSize + 1)
      (by rw [hm2]; exact Or.inl rfl) ho2 hor2 hfp2 hb2
  have hdrop : (data.drop kBufferSize).length = 1 := by
    simp [List.length_drop, hlen]
  have hmin2 : min (data.drop kBufferSize).length (kBufferSize - s2.buffer.data.length)
      = 1 := by
    rw [hdrop, hbea]
    simp [kBufferSize]
  rw [hmin2] at hstep2 hbe3 hnw13
  have hguard2 : 1 < kBufferSize + 1 := by norm_num [kBufferSize]
  have hbuf2 : s2.buffer.data ++ (data.drop kBufferSize).take 1 ≠ [] := by
    have hl : (s2.buffer.data ++ (data.drop kBufferSize).take 1).length = 1 := by
      rw [hbea]
      simp [List.length_take, hdrop]
    intro hnil
    rw [hnil] at hl
    simp at hl
  have hnwb : s3.nativeWrites = s2.nativeWrites + 1 := hnw13 ⟨hguard2, hbuf2⟩
  have hbeb : s3.buffer.data = [] := hbe3 hguard2
  rw [writeLoop_succ_inl (2 * (kBufferSize + 1)) s2 s3 (data.drop kBufferSize)
    (kBufferSize + 1) (0 + kBufferSize) 1 hstep2]
  rw [if_neg (by rw [hoff3, hoff2]; norm_num [freshWrite, freshOpen, MAX_WRITE_FILE_SIZE,
    kBufferSize])]
  rw [if_neg (by norm_num)]
  refine ⟨(writeFinish s3 (0 + kBufferSize + 1)).1, rfl, ?_, hbeb⟩
  show s3.nativeWrites = 2
  rw [hnwb, hnwa]
  rfl

/-- Counterexample to claim C7 as stated: writing exactly buffer-capacity
(4096) bytes into a fresh writable stream issues ZERO native write calls —
the flush guard is `nWritten < length`, which is `4096 < 4096`, false — so
all 4096 bytes merely sit in the buffer (they reach the handle only on a
later flush, seek or close), not the one flush the claim requires. -/
theorem c7_counterexample :
    ∃ s', Fs.write freshWrite (List.replicate kBufferSize 170)
        = some (s', .ok kBufferSize) ∧
      s'.nativeWrites = 0 ∧ s'.nativeWrites ≠ 1 := by
  obtain ⟨s', hw, h0, hb⟩ := write_cap_stages_only (List.replicate kBufferSize 170) (by simp)
  exact ⟨s', hw, h0, by rw [h0]; norm_num⟩

/-- Claim C7 as amended: from a freshly opened writable stream, writing
exactly buffer-capacity bytes issues no native write call (the bytes stay
staged); writing buffer-capacity + 1 bytes issues exactly two. -/
theorem c7_flush_count :
    (∀ data : List byte_t, data.length = kBufferSize →
      ∃ s', Fs.write freshWrite data = some (s', .ok kBufferSize) ∧
        s'.nativeWrites = 0 ∧ s'.buffer.data.length = kBufferSize) ∧
    (∀ data : List byte_t, data.length = kBufferSize + 1 →
      ∃ s', Fs.write freshWrite data = some (s', .ok (kBufferSize + 1)) ∧
        s'.nativeWrites = 2 ∧ s'.buffer.data = []) :=
  ⟨write_cap_stages_only, write_cap1_two_writes⟩

/-- Witness for C7 (amended) at concrete byte sequences of lengths 4096
and 4097. -/
theorem c7_flush_count_witness :
    (∃ s', Fs.write freshWrite (List.replicate kBufferSize 7)
        = some (s', .ok kBufferSize) ∧
      s'.nativeWrites = 0 ∧ s'.buffer.data.length = kBufferSize) ∧
    (∃ s', Fs.write freshWrite (List.replicate (kBufferSize + 1) 7)
        = some (s', .ok (kBufferSize + 1)) ∧
      s'.nativeWrites = 2 ∧ s'.buffer.data = []) :=
  ⟨c7_flush_count.1 (List.replicate kBufferSize 7) (by simp),
   c7_flush_count.2 (List.replicate (kBufferSize + 1) 7) (by simp)⟩

/-- A write that fits entirely in the empty staging buffer: one iteration,
no flush, no file or descriptor access — only the buffer and the logical
counters change. -/
theorem Fs.write_small (s : Fs) (data : List byte_t) (hbuf : s.buffer.data = [])
    (hle : data.length ≤ kBufferSize)
    (hmax : s.currentOffset + data.length < MAX_WRITE_FILE_SIZE) :
    ∃ s', Fs.write s data = some (s', .ok data.length) ∧
      s'.mode = s.mode ∧ s'.fdOpen = s.fdOpen ∧ s'.oracle = s.oracle ∧
      s'.buffer.data = data ∧ s'.currentOffset = s.currentOffset + data.length ∧
      s'.fileSize = max s.fileSize (s.currentOffset + data.length) ∧
      s'.file = s.file ∧ s'.filePos = s.filePos ∧ s'.nativeWrites = s.nativeWrites := by
  obtain ⟨m, fsz, off, ⟨bd⟩, fdo, fl, fp, orc, nw⟩ := s
  simp only at hbuf hmax ⊢
  subst hbuf
  have hmin : min data.length (kBufferSize - ([] : List byte_t).length) = data.length := by
    simp [Nat.min_eq_left hle]
  have hstep : writeStep ⟨m, fsz, off, ⟨[]⟩, fdo, fl, fp, orc, nw⟩ data data.length =
      .inl (⟨m, fsz, off, ⟨[] ++ data.take data.length⟩, fdo, fl, fp, orc, nw⟩,
        data.length) := by
    rw [writeStep_eq]
    simp only [hmin]
    rw [if_neg (Nat.lt_irrefl data.length)]
  unfold Fs.write
  rw [show 2 * data.length + 2 = (2 * data.length + 1) + 1 from rfl]
  rw [writeLoop_succ_inl (2 * data.length + 1) _ _ data data.length 0 data.length hstep]
  rw [if_neg (by simp only []; omega), if_neg (by omega)]
  simp only [Nat.zero_add]
  refine ⟨_, rfl, ?_, ?_, ?_, ?_, ?_, ?_, ?_, ?_, ?_⟩
  · rfl
  · rfl
  · rfl
  · show [] ++ data.take data.length = data
    simp
  · rfl
  · show (if off + data.length > fsz then off + data.length else fsz)
        = max fsz (off + data.length)
    rw [Nat.max_def]
    split <;> split <;> omega
  · rfl
  · rfl
  · rfl

/-- Claim C8 as amended, positive half: when the flush transfers fewer
bytes than the portion staged in the current loop iteration (here: fewer
than a full buffer, on a write that starts with an empty buffer), `write`
returns early with the flushed byte count, leaving `tell()` and `size()`
unchanged. -/
theorem c8_short_flush (s : Fs) (data : List byte_t) (c : Nat) (rest : List Nat)
    (hw : s.mode = Mode.Write ∨ s.mode = Mode.ReadWrite) (ho : s.fdOpen = true)
    (hbuf : s.buffer.data = []) (hor : s.oracle = c :: rest)
    (hc : c < kBufferSize) (hlen : kBufferSize < data.length) :
    ∃ s', Fs.write s data = some (s', .ok c) ∧
      FileStream.tell s' = FileStream.tell s ∧
      FileStream.size s' = FileStream.size s := by
  obtain ⟨m, fsz, off, ⟨bd⟩, fdo, fl, fp, orc, nw⟩ := s
  simp only at hw ho hbuf hor ⊢
  subst hbuf ho hor
  have hmin : min data.length (kBufferSize - ([] : List byte_t).length) = kBufferSize := by
    simp [Nat.min_eq_right (Nat.le_of_lt hlen)]
  have hstagedlen : (([] : List byte_t) ++ data.take kBufferSize).length = kBufferSize := by
    simp [List.length_take, Nat.min_eq_left (Nat.le_of_lt hlen)]
  have hbd : (([] : List byte_t) ++ data.take kBufferSize) ≠ [] := by
    intro hnil
    rw [hnil] at hstagedlen
    simp [kBufferSize] at hstagedlen
  have hfl := Fs.flush_short
    (⟨m, fsz, off, ⟨[] ++ data.take kBufferSize⟩, true, fl, fp, c :: rest, nw⟩ : Fs)
    c rest rfl rfl hw hbd (by rw [hstagedlen]; exact Nat.le_of_lt hc)
  have hstep : writeStep (⟨m, fsz, off, ⟨[]⟩, true, fl, fp, c :: rest, nw⟩ : Fs)
      data data.length =
      .inr (⟨m, fsz, off, ⟨[]⟩, true,
        osWriteAt fl fp (([] ++ data.take kBufferSize).take c), fp + c, rest, nw + 1⟩,
        .ok c) := by
    rw [writeStep_eq]
    simp only [hmin]
    rw [if_pos hlen, hfl]
    show (if c < kBufferSize then
        (Sum.inr (⟨m, fsz, off, ⟨[]⟩, true,
          osWriteAt fl fp (([] ++ data.take kBufferSize).take c), fp + c, rest, nw + 1⟩,
          Except.ok c) : (Fs × Nat) ⊕ (Fs × Except FsError Nat))
      else Sum.inl (⟨m, fsz, off, ⟨[]⟩, true,
          osWriteAt fl fp (([] ++ data.take kBufferSize).take c), fp + c, rest, nw + 1⟩,
          kBufferSize))
      = Sum.inr (⟨m, fsz, off, ⟨[]⟩, true,
          osWriteAt fl fp (([] ++ data.take kBufferSize).take c), fp + c, rest, nw + 1⟩,
          Except.ok c)
    rw [if_pos hc]
  unfold Fs.write
  rw [show 2 * data.length + 2 = (2 * data.length + 1) + 1 from rfl]
  rw [writeLoop_succ_inr (2 * data.length + 1) _ data data.length 0 _ hstep]
  exact ⟨_, rfl, rfl, rfl⟩

/-- Witness for C8 (amended): a first flush capped at 5 bytes makes a
4097-byte write return 5 with the logical counters untouched. -/
theorem c8_short_flush_witness :
    ∃ s', Fs.write { freshWrite with oracle := [5] } (List.replicate 4097 9)
        = some (s', .ok 5) ∧
      FileStream.tell s' = FileStream.tell { freshWrite with oracle := [5] } ∧
      FileStream.size s' = FileStream.size { freshWrite with oracle := [5] } :=
  c8_short_flush _ _ 5 [] (Or.inl rfl) rfl rfl rfl (by norm_num [kBufferSize])
    (by rw [List.length_replicate]; norm_num [kBufferSize])

/-- The divergence behind claim C8: with bytes already staged from an
earlier write, a flush that short-transfers only `c` bytes does NOT make
`write` return early as long as `c` is at least the portion staged by the
current iteration (`nWritten`), even though `c` is far less than the
buffer content.  The loop carries on, issues a second (full) native write
of the remainder, reports the full count and advances the cursor — the
unwritten middle of the buffer is silently lost. -/
theorem write_staged_short_flush (s : Fs) (d2 : List byte_t) (c : Nat)
    (hw : s.mode = Mode.Write ∨ s.mode = Mode.ReadWrite) (ho : s.fdOpen = true)
    (hor : s.oracle = [c]) (hfp : s.filePos = s.file.length)
    (hB1 : 0 < s.buffer.data.length) (hBcap : s.buffer.data.length < kBufferSize)
    (hLbig : kBufferSize - s.buffer.data.length < d2.length)
    (hLcap : d2.length ≤ kBufferSize)
    (hc1 : kBufferSize - s.buffer.data.length ≤ c) (hc2 : c < kBufferSize)
    (hmax : s.currentOffset + d2.length < MAX_WRITE_FILE_SIZE) :
    ∃ s', Fs.write s d2 = some (s', .ok d2.length) ∧
      s'.currentOffset = s.currentOffset + d2.length ∧
      s'.fileSize = max s.fileSize (s.currentOffset + d2.length) ∧
      s'.nativeWrites = s.nativeWrites + 2 ∧
      s'.file.length = s.file.length + c +
        (d2.length - (kBufferSize - s.buffer.data.length)) := by
  obtain ⟨m, fsz, off, ⟨bd⟩, fdo, fl, fp, orc, nw⟩ := s
  simp only at hw ho hor hfp hB1 hBcap hLbig hc1 hmax ⊢
  subst ho hor hfp
  -- first iteration: stage to capacity, short flush of c bytes, continue
  have hmin1 : min d2.length (kBufferSize - bd.length) = kBufferSize - bd.length :=
    Nat.min_eq_right (Nat.le_of_lt hLbig)
  have hst1len : ((bd ++ d2.take (kBufferSize - bd.length)) : List byte_t).length
      = kBufferSize := by
    simp [List.length_take]
    omega
  have hbd1 : (bd ++ d2.take (kBufferSize - bd.length)) ≠ [] := by
    intro hnil
    rw [hnil] at hst1len
    simp [kBufferSize] at hst1len
  have hfl1 := Fs.flush_short
    (⟨m, fsz, off, ⟨bd ++ d2.take (kBufferSize - bd.length)⟩, true, fl, fl.length,
      [c], nw⟩ : Fs) c [] rfl rfl hw hbd1 (by rw [hst1len]; exact Nat.le_of_lt hc2)
  have hstep1 : writeStep (⟨m, fsz, off, ⟨bd⟩, true, fl, fl.length, [c], nw⟩ : Fs)
      d2 d2.length =
      .inl (⟨m, fsz, off, ⟨[]⟩, true,
        osWriteAt fl fl.length ((bd ++ d2.take (kBufferSize - bd.length)).take c),
        fl.length + c, [], nw + 1⟩, kBufferSize - bd.length) := by
    rw [writeStep_eq]
    simp only [hmin1]
    rw [if_pos hLbig, hfl1]
    show (if c < kBufferSize - bd.length then
        (Sum.inr (⟨m, fsz, off, ⟨[]⟩, true,
          osWriteAt fl fl.length ((bd ++ d2.take (kBufferSize - bd.length)).take c),
          fl.length + c, [], nw + 1⟩, Except.ok c) : (Fs × Nat) ⊕ (Fs × Except FsError Nat))
      else Sum.inl (⟨m, fsz, off, ⟨[]⟩, true,
          osWriteAt fl fl.length ((bd ++ d2.take (kBufferSize - bd.length)).take c),
          fl.length + c, [], nw + 1⟩, kBufferSize - bd.length))
      = Sum.inl (⟨m, fsz, off, ⟨[]⟩, true,
          osWriteAt fl fl.length ((bd ++ d2.take (kBufferSize - bd.length)).take c),
          fl.length + c, [], nw + 1⟩, kBufferSize - bd.length)
    rw [if_neg (Nat.not_lt.mpr hc1)]
  unfold Fs.write
  rw [show 2 * d2.length + 2 = (2 * d2.length + 1) + 1 from rfl]
  rw [writeLoop_succ_inl (2 * d2.length + 1) _ _ d2 d2.length 0 (kBufferSize - bd.length)
    hstep1]
  rw [if_neg (by simp only []; omega), if_pos (by omega)]
  -- second iteration: stage the remainder, full flush, finish
  have hrem2len : ((d2.drop (kBufferSize - bd.length)) : List byte_t).length
      = d2.length - (kBufferSize - bd.length) := by
    simp [List.length_drop]
  have hmin2 : min (d2.drop (kBufferSize - bd.length)).length
      (kBufferSize - ([] : List byte_t).length)
      = (d2.drop (kBufferSize - bd.length)).length := by
    apply Nat.min_eq_left
    rw [hrem2len]
    simp
    omega
  have hst2len : (([] : List byte_t) ++
        (d2.drop (kBufferSize - bd.length)).take (d2.drop (kBufferSize - bd.length)).length).length
      = (d2.drop (kBufferSize - bd.length)).length := by
    simp
  have hbd2 : (([] : List byte_t) ++
        (d2.drop (kBufferSize - bd.length)).take (d2.drop (kBufferSize - bd.length)).length)
      ≠ [] := by
    intro hnil
    rw [hnil] at hst2len
    rw [hrem2len] at hst2len
    simp at hst2len
    omega
  have hfl2 := Fs.flush_full
    (⟨m, fsz, off,
      ⟨[] ++ (d2.drop (kBufferSize - bd.length)).take (d2.drop (kBufferSize - bd.length)).length⟩,
      true, osWriteAt fl fl.length ((bd ++ d2.take (kBufferSize - bd.length)).take c),
      fl.length + c, [], nw + 1⟩ : Fs) rfl rfl hw hbd2
  have hstep2 : writeStep (⟨m, fsz, off, ⟨[]⟩, true,
      osWriteAt fl fl.length ((bd ++ d2.take (kBufferSize - bd.length)).take c),
      fl.length + c, [], nw + 1⟩ : Fs) (d2.drop (kBufferSize - bd.length)) d2.length =
      .inl (⟨m, fsz, off, ⟨[]⟩, true,
        osWriteAt (osWriteAt fl fl.length ((bd ++ d2.take (kBufferSize - bd.length)).take c))
          (fl.length + c)
          ([] ++ (d2.drop (kBufferSize - bd.length)).take (d2.drop (kBufferSize - bd.length)).length),
        fl.length + c +
          (([] : List byte_t) ++
            (d2.drop (kBufferSize - bd.length)).take (d2.drop (kBufferSize - bd.length)).length).length,
        [], nw + 1 + 1⟩, (d2.drop (kBufferSize - bd.length)).length) := by
    rw [writeStep_eq]
    simp only [hmin2]
    rw [if_pos (by rw [hrem2len]; omega), hfl2]
    show (if (([] : List byte_t) ++
          (d2.drop (kBufferSize - bd.length)).take (d2.drop (kBufferSize - bd.length)).length).length
          < (d2.drop (kBufferSize - bd.length)).length then
        (Sum.inr (⟨m, fsz, off, ⟨[]⟩, true,
          osWriteAt (osWriteAt fl fl.length ((bd ++ d2.take (kBufferSize - bd.length)).take c))
            (fl.length + c)
            ([] ++ (d2.drop (kBufferSize - bd.length)).take (d2.drop (kBufferSize - bd.length)).length),
          fl.length + c +
            (([] : List byte_t) ++
              (d2.drop (kBufferSize - bd.length)).take (d2.drop (kBufferSize - bd.length)).length).length,
          [], nw + 1 + 1⟩,
          Except.ok ((([] : List byte_t) ++
            (d2.drop (kBufferSize - bd.length)).take (d2.drop (kBufferSize - bd.length)).length).length))
          : (Fs × Nat) ⊕ (Fs × Except FsError Nat))
      else Sum.inl (⟨m, fsz, off, ⟨[]⟩, true,
          osWriteAt (osWriteAt fl fl.length ((bd ++ d2.take (kBufferSize - bd.length)).take c))
            (fl.length + c)
            ([] ++ (d2.drop (kBufferSize - bd.length)).take (d2.drop (kBufferSize - bd.length)).length),
          fl.length + c +
            (([] : List byte_t) ++
              (d2.drop (kBufferSize - bd.length)).take (d2.drop (kBufferSize - bd.length)).length).length,
          [], nw + 1 + 1⟩, (d2.drop (kBufferSize - bd.length)).length))
      = Sum.inl (⟨m, fsz, off, ⟨[]⟩, true,
          osWriteAt (osWriteAt fl fl.length ((bd ++ d2.take (kBufferSize - bd.length)).take c))
            (fl.length + c)
            ([] ++ (d2.drop (kBufferSize - bd.length)).take (d2.drop (kBufferSize - bd.length)).length),
          fl.length + c +
            (([] : List byte_t) ++
              (d2.drop (kBufferSize - bd.length)).take (d2.drop (kBufferSize - bd.length)).length).length,
          [], nw + 1 + 1⟩, (d2.drop (kBufferSize - bd.length)).length)
    rw [if_neg (by rw [hst2len]; exact Nat.lt_irrefl _)]
  rw [writeLoop_succ_inl (2 * d2.length) _ _ (d2.drop (kBufferSize - bd.length)) d2.length
    (0 + (kBufferSize - bd.length)) (d2.drop (kBufferSize - bd.length)).length hstep2]
  rw [if_neg (by simp only []; rw [hrem2len]; omega)]
  rw [if_neg (by rw [hrem2len]; omega)]
  rw [show 0 + (kBufferSize - bd.length) + (d2.drop (kBufferSize - bd.length)).length
      = d2.length from by rw [hrem2len]; omega]
  refine ⟨_, rfl, ?_, ?_, ?_, ?_⟩
  · rfl
  · show (if off + d2.length > fsz then off + d2.length else fsz) = max fsz (off + d2.length)
    rw [Nat.max_def]
    split <;> split <;> omega
  · rfl
  · show (osWriteAt (osWriteAt fl fl.length ((bd ++ d2.take (kBufferSize - bd.length)).take c))
        (fl.length + c)
        ([] ++ (d2.drop (kBufferSize - bd.length)).take (d2.drop (kBufferSize - bd.length)).length)).length
      = fl.length + c + (d2.length - (kBufferSize - bd.length))
    rw [osWriteAt_append]
    have hfile2len : ((fl ++ (bd ++ d2.take (kBufferSize - bd.length)).take c) : List byte_t).length
        = fl.length + c := by
      simp [List.length_take, hst1len]
      omega
    rw [show fl.length + c
        = ((fl ++ (bd ++ d2.take (kBufferSize - bd.length)).take c) : List byte_t).length
        from hfile2len.symm]
    rw [osWriteAt_append]
    simp [List.length_take, List.length_drop]
    omega

/-- Counterexample to claim C8 as stated: with 4000 bytes already staged
(from a first write), a 200-byte write triggers a flush of the full
4096-byte buffer of which the native call transfers only 100 bytes — fewer
than were staged — yet `write` does NOT return early with 100: it returns
the full 200, `tell()` moves from 4000 to 4200 and `size()` to 4200, a
second native write is issued, and the physical file ends up with only
204 bytes (the 3996 unwritten buffer bytes are silently lost). -/
theorem c8_counterexample :
    ∃ s1 s2 : Fs,
      Fs.write { freshWrite with oracle := [100] } (List.replicate 4000 170)
        = some (s1, .ok 4000) ∧
      FileStream.tell s1 = 4000 ∧
      Fs.write s1 (List.replicate 200 187) = some (s2, .ok 200) ∧
      FileStream.tell s2 = 4200 ∧ FileStream.size s2 = 4200 ∧
      s2.nativeWrites = 2 ∧ s2.file.length = 204 := by
  obtain ⟨s1, hw1, hm1, ho1, hor1, hbuf1, hoff1, hsz1, hfile1, hfp1, hnw1⟩ :=
    Fs.write_small { freshWrite with oracle := [100] } (List.replicate 4000 170)
      rfl (by rw [List.length_replicate]; norm_num [kBufferSize])
      (by rw [List.length_replicate]; norm_num [freshWrite, freshOpen, MAX_WRITE_FILE_SIZE])
  rw [show (List.replicate 4000 (170 : byte_t)).length = 4000 from List.length_replicate 4000 170]
    at hw1 hoff1 hsz1
  have h1off : s1.currentOffset = 4000 := by
    rw [hoff1]
    norm_num [freshWrite, freshOpen]
  have h1buflen : s1.buffer.data.length = 4000 := by
    rw [hbuf1, List.length_replicate]
  have h1o : s1.fdOpen = true := by
    rw [ho1]
    rfl
  have h1or : s1.oracle = [100] := by
    rw [hor1]
  have h1fp : s1.filePos = s1.file.length := by
    rw [hfp1, hfile1]
    rfl
  have h1sz : s1.fileSize = 4000 := by
    rw [hsz1]
    norm_num [freshWrite, freshOpen]
  have h1fl : s1.file.length = 0 := by
    rw [hfile1]
    norm_num [freshWrite, freshOpen]
  have h1nw : s1.nativeWrites = 0 := by
    rw [hnw1]
    rfl
  obtain ⟨s2, hw2, hoff2, hsz2, hnw2, hflen2⟩ :=
    write_staged_short_flush s1 (List.replicate 200 187) 100
      (by rw [hm1]; exact Or.inl rfl) h1o h1or h1fp
      (by rw [h1buflen]; norm_num)
      (by rw [h1buflen]; norm_num [kBufferSize])
      (by rw [h1buflen, List.length_replicate]; norm_num [kBufferSize])
      (by rw [List.length_replicate]; norm_num [kBufferSize])
      (by rw [h1buflen]; norm_num [kBufferSize])
      (by norm_num [kBufferSize])
      (by rw [h1off, List.length_replicate]; norm_num [MAX_WRITE_FILE_SIZE])
  rw [show (List.replicate 200 (187 : byte_t)).length = 200 from List.length_replicate 200 187]
    at hw2 hoff2 hsz2 hflen2
  refine ⟨s1, s2, hw1, h1off, hw2, ?_, ?_, ?_, ?_⟩
  · show s2.currentOffset = 4200
    rw [hoff2, h1off]
  · show s2.fileSize = 4200
    rw [hsz2, h1off, h1sz]
    norm_num
  · rw [hnw2, h1nw]
  · rw [hflen2, h1fl, h1buflen]
    norm_num [kBufferSize]
